import Mathlib

/-!
# Verification of the Ideon similarity-linking and clustering core

Shallow embedding of `core/utils/graph_utils.py`, `core/crews/graph_agent.py`
and the relevant parts of `core/database/chroma_manager.py` and
`core/database/sqlite_manager.py`.

Modelling conventions:
* Python `float` is modelled as `ℚ`; the claims under study only depend on
  ordered-field arithmetic and comparisons, not on IEEE rounding.
* `math.sqrt` is modelled by `sqrtQ`, an executable rational square root
  that is exact on perfect squares (all concrete inputs used in this
  development are perfect squares).
* Python's `random.Random(seed)` is a deterministic pseudo-random stream,
  a pure function of the seed.  It is modelled by the `Rng` structure: the
  result of the initial `rnd.sample(range(n), k)` call and the stream of
  subsequent `rnd.randint(0, n)` results.  Per the Python documentation,
  `randint(a, b)` returns an integer `N` with `a ≤ N ≤ b`, both endpoints
  included.
* A Python `IndexError` (out-of-bounds list access) is modelled by `Option`:
  the function returns `none` where the Python code would raise.
-/

abbrev Vec := List ℚ

/-- Python `sum(x * y for x, y in zip(a, b))`: zip truncates to the shorter
list and the sum is a left fold starting from `0`. -/
def dotList (a b : Vec) : ℚ :=
  (a.zip b).foldl (fun s p => s + p.1 * p.2) 0

/-- Python `sum(x * x for x in a)`. -/
def sumSquares (a : Vec) : ℚ :=
  a.foldl (fun s x => s + x * x) 0

/-- Largest `i ≤ n` with `i * i ≤ n`: the integer square root, written as a
structural fold so that it reduces inside the kernel. -/
def natSqrtLin (n : Nat) : Nat :=
  ((List.range (n + 1)).filter fun i => i * i ≤ n).foldl max 0

/-- Model of `math.sqrt` on the nonnegative rationals produced by
`sumSquares`: exact whenever numerator and denominator are perfect
squares. -/
def sqrtQ (q : ℚ) : ℚ :=
  (natSqrtLin q.num.toNat : ℚ) / (natSqrtLin q.den : ℚ)

/-- `graph_utils.cosine_similarity`: returns `0.0` for empty or
length-mismatched inputs and when either norm is zero, else
`dot / (‖a‖ * ‖b‖)`. -/
def cosine_similarity (a b : Vec) : ℚ :=
  if a.isEmpty || b.isEmpty || a.length != b.length then 0
  else
    let dot := dotList a b
    let na := sqrtQ (sumSquares a)
    let nb := sqrtQ (sumSquares b)
    if na = 0 || nb = 0 then 0 else dot / (na * nb)

/-- The draws an instance of Python's `random.Random(seed)` produces inside
`kmeans`: `sample` is the result of `rnd.sample(range(n), k)` and
`reseed t` is the result of the `t`-th call to `rnd.randint(0, n)`.
Both are deterministic functions of the seed. -/
structure Rng where
  sample : List Nat
  reseed : Nat → Nat

/-- The body of the `for j, c in enumerate(centroids)` loop inside
`kmeans.assign`: track `(best_idx, best_d)`, starting from
`(0, float("inf"))` (modelled as `(0, none)`), updating on strict
improvement `d < best_d`. -/
def bestStep (v : Vec) : List Vec → Nat → Nat × Option ℚ → Nat × Option ℚ
  | [], _, acc => acc
  | c :: rest, j, acc =>
    let d := 1 - cosine_similarity v c
    let acc' :=
      match acc.2 with
      | none => (j, some d)
      | some bd => if d < bd then (j, some d) else acc
    bestStep v rest (j + 1) acc'

/-- Index of the centroid minimising `1 - cosine_similarity v c`
(first one on ties, as in the source's strict `<` update). -/
def bestIdx (v : Vec) (cs : List Vec) : Nat :=
  (bestStep v cs 0 ((0 : Nat), (none : Option ℚ))).1

/-- `kmeans.assign`, as a function of the current centroids: the new label
of each vector.  The Python loop mutates `labels` in place but the new
label of vector `i` only depends on `vectors` and `centroids`. -/
def assignLabels (vectors cs : List Vec) : List Nat :=
  vectors.map fun v => bestIdx v cs

/-- The `changes` counter of `kmeans.assign`: positions where the stored
label differs from the newly computed one. -/
def countChanges (old upd : List Nat) : Nat :=
  ((old.zip upd).filter fun p => p.1 != p.2).length

/-- `sums[i][d] += v[d]` for `d in range(dim)` where `dim = len(s)`: raises
`IndexError` (here `none`) when `v` is shorter than `s`. -/
def addVec (s v : Vec) : Option Vec :=
  if s.length ≤ v.length then some ((s.zip v).map fun p => p.1 + p.2) else none

/-- The accumulation loop of `kmeans.recompute`:
`for v, i in zip(vectors, labels): counts[i] += 1; sums[i] += v`. -/
def accumulate : List (Vec × Nat) → List Vec → List Nat → Option (List Vec × List Nat)
  | [], sums, counts => some (sums, counts)
  | (v, i) :: rest, sums, counts =>
    match counts.get? i, sums.get? i with
    | some c, some s =>
      match addVec s v with
      | some s' => accumulate rest (sums.set i s') (counts.set i (c + 1))
      | _ => none
    | _, _ => none

/-- The `for j in range(k)` loop of `kmeans.recompute`: an empty cluster is
reseeded from `vectors[rnd.randint(0, n)]` (the draw is NOT clamped to
`n - 1`; an out-of-range draw is an `IndexError`, modelled as `none`),
then `centroids[j] = [x / counts[j] for x in sums[j]]`.  The second
component threads the `randint` call counter. -/
def reseedAndDivide (vectors : List Vec) (rng : Rng) :
    List (Vec × Nat) → Nat → Option (List Vec × Nat)
  | [], t => some ([], t)
  | (s, c) :: rest, t =>
    if c = 0 then
      match vectors.get? (rng.reseed t) with
      | none => none
      | some w =>
        match reseedAndDivide vectors rng rest (t + 1) with
        | none => none
        | some (cs, t') => some ((w.map fun x => x / (1 : ℚ)) :: cs, t')
    else
      match reseedAndDivide vectors rng rest t with
      | none => none
      | some (cs, t') => some ((s.map fun x => x / (c : ℚ)) :: cs, t')

/-- `kmeans.recompute`.  `dim` is `len(vectors[0])`. -/
def recompute (vectors : List Vec) (labels : List Nat) (k : Nat) (rng : Rng)
    (t : Nat) : Option (List Vec × Nat) :=
  match vectors.head? with
  | none => none
  | some v0 =>
    let dim := v0.length
    match accumulate (vectors.zip labels) (List.replicate k (List.replicate dim 0))
        (List.replicate k 0) with
    | none => none
    | some (sums, counts) => reseedAndDivide vectors rng (sums.zip counts) t

/-- The `for _ in range(max_iter)` loop of `kmeans`: assign, stop when no
label changed, else recompute centroids and continue. -/
def kmeansLoop (vectors : List Vec) (k : Nat) (rng : Rng) :
    Nat → List Nat → List Vec → Nat → Option (List Nat × List Vec)
  | 0, labels, cs, _ => some (labels, cs)
  | fuel + 1, labels, cs, t =>
    let labels' := assignLabels vectors cs
    if countChanges labels labels' = 0 then some (labels', cs)
    else
      match recompute vectors labels' k rng t with
      | none => none
      | some (cs', t') => kmeansLoop vectors k rng fuel labels' cs' t'

/-- `graph_utils.kmeans`.  `k` is clamped to `max(1, min(k, n))`; initial
centroids are `vectors[i]` for the sampled indices; labels start at `0`.
Returns `none` where the Python code would raise `IndexError`. -/
def kmeans (vectors : List Vec) (k : ℤ) (max_iter : Nat) (rng : Rng) :
    Option (List Nat × List Vec) :=
  if vectors.isEmpty then some ([], [])
  else
    let n := vectors.length
    let k' := (max 1 (min k (n : ℤ))).toNat
    match rng.sample.mapM (fun i => vectors.get? i) with
    | none => none
    | some cs => kmeansLoop vectors k' rng max_iter (List.replicate n 0) cs 0

/-!
## Data model for `graph_agent.py`

The external collaborators (Chroma vector index, SQLite store, embedding
provider) are modelled by an environment `Env` of pure functions, as the
spec treats them: leaf collaborators consumed by the core.

* `getIdeasEmb id` is the `embeddings` field of
  `chroma.get_ideas(ids=[id], include=["embeddings"])` after the manager's
  internal exception recovery (which degrades to an empty list).
* `rawQuery t emb n w` is the `t`-th attempt (0 = first try, 1 = retry
  after re-initialising collections) of the underlying
  `self.ideas.query(...)` call inside `ChromaManager.query_ideas`; the raw
  call may raise, modelled by `Except`.
* `nodes` is `SQLiteManager.get_idea_node`; `list_idea_nodes` takes the
  limit and the optional user / voice-profile filters.
* `embed_text` is `EmbeddingModel.embed_text` (total: it always produces a
  vector, by hashing fallback if no model is available).
* `edgeFail t` says whether the `t`-th `create_edge` INSERT raises
  (persistence failure); the edge id returned by a successful call is
  modelled by the call counter (standing in for `uuid4`).
* `clusterIds`/`clusterEmbs` are the `ids`/`embeddings` fields of the
  whole-collection `chroma.get_ideas` call in `cluster_ideas`, and `rng42`
  is the draw stream of `random.Random(42)` used by that call.
-/

structure IdeaNode where
  content : Option String
  tags : Option String
  user_id : Option String
  voice_profile_id : Option String
deriving DecidableEq

/-- A row of `list_idea_nodes` as used by the fallback pool and
`autolink_recent`: the `node_id` column is always populated (it is the
store-generated key), `content` may be NULL. -/
structure Row where
  node_id : String
  content : Option String
deriving DecidableEq

structure Env where
  getIdeasEmb : String → List Vec
  rawQuery : Nat → Vec → Nat → Option String → Except Unit (List String × List ℚ)
  nodes : String → Option IdeaNode
  list_idea_nodes : Nat → Option String → Option String → List Row
  embed_text : String → Vec
  clusterIds : List String
  clusterEmbs : List Vec
  rng42 : Rng
  edgeFail : Nat → Bool

/-- An edge row as created by `SQLiteManager.create_edge`, restricted to
the fields the claims quantify over (the free-form metadata map is not
modelled). -/
structure Edge where
  src_id : String
  dst_id : String
  edge_type : String
  weight : ℚ
deriving DecidableEq

/-- The SQLite edge table plus a counter of `create_edge` attempts. -/
structure DBState where
  edges : List Edge
  createCalls : Nat
deriving DecidableEq

instance {ε α : Type} [DecidableEq ε] [DecidableEq α] :
    DecidableEq (Except ε α) := fun a b =>
  match a, b with
  | .ok x, .ok y => if h : x = y then .isTrue (by rw [h]) else .isFalse (by simp [h])
  | .error x, .error y => if h : x = y then .isTrue (by rw [h]) else .isFalse (by simp [h])
  | .ok _, .error _ => .isFalse (by simp)
  | .error _, .ok _ => .isFalse (by simp)

/-- `ChromaManager.query_ideas`: try the raw query, on failure re-init and
retry, on a second failure return an empty result dict.  The caller never
sees an exception from this method. -/
def query_ideas (env : Env) (emb : Vec) (n : Nat) (w : Option String) :
    List String × List ℚ :=
  match env.rawQuery 0 emb n w with
  | .ok r => r
  | .error _ =>
    match env.rawQuery 1 emb n w with
    | .ok r => r
    | .error _ => ([], [])

/-- `SQLiteManager.create_edge`: an INSERT that either raises (modelled by
`env.edgeFail` at the current call counter, leaving the edge table
unchanged) or appends the row and returns the fresh edge id. -/
def create_edge (env : Env) (st : DBState) (src dst ty : String) (w : ℚ) :
    DBState × Except Unit String :=
  if env.edgeFail st.createCalls then
    ({ st with createCalls := st.createCalls + 1 }, .error ())
  else
    ({ edges := st.edges ++ [⟨src, dst, ty, w⟩], createCalls := st.createCalls + 1 },
      .ok (toString st.createCalls))

/-- `SQLiteManager.edge_exists`: a SELECT for an edge of the given type
from `src` to `dst`. -/
def edge_exists (st : DBState) (src dst ty : String) : Bool :=
  st.edges.any fun e => e.src_id == src && e.dst_id == dst && e.edge_type == ty

/-- `GraphAgent.get_idea_content`. -/
def get_idea_content (env : Env) (node_id : String) : Option String :=
  (env.nodes node_id).bind fun n => n.content

/-- `GraphAgent.get_idea_embedding`: prefer the stored vector; else embed
the idea's content when it is truthy (non-empty); else `None`. -/
def get_idea_embedding (env : Env) (node_id : String) : Option Vec :=
  match env.getIdeasEmb node_id with
  | e :: _ => some e
  | [] =>
    match get_idea_content env node_id with
    | some c => if c.isEmpty then none else some (env.embed_text c)
    | none => none

/-- Python truthiness of an optional vector (`if not emb`): `None` and the
empty list are falsy. -/
def vecFalsy : Option Vec → Bool
  | none => true
  | some v => v.isEmpty

/-- `GraphAgent.weight_from_distance`. -/
def weight_from_distance (d : Option ℚ) : ℚ :=
  match d with
  | none => 0
  | some d => 1 / (1 + d)

/-- The whitespace set stripped by Python's `str.strip()` (ASCII part). -/
def isSpaceChar (c : Char) : Bool := c = ' ' || c = '\t' || c = '\n' || c = '\r'

/-- Python `str.strip()`, structurally on the character list (so that it
reduces inside the kernel; the core library's `String.trim` is
well-founded-recursive and does not). -/
def pyStrip (s : String) : String :=
  ⟨((s.data.dropWhile isSpaceChar).reverse.dropWhile isSpaceChar).reverse⟩

/-- Python `str.lower()` (faithful on ASCII). -/
def pyLower (s : String) : String := ⟨s.data.map Char.toLower⟩

/-- Python `str.split(",")` on the character list: split at every comma,
keeping empty pieces (`"".split(",") == [""]`). -/
def splitCommaChars : List Char → List (List Char)
  | [] => [[]]
  | c :: rest =>
    match splitCommaChars rest with
    | [] => [[c]]
    | h :: t => if c = ',' then [] :: h :: t else (c :: h) :: t

/-- Python `txt.split(",")`. -/
def pySplitComma (s : String) : List String :=
  (splitCommaChars s.data).map fun l => ⟨l⟩

/-- The tag-set comprehension
`{t.strip().lower() for t in txt.split(",") if t and t.strip()}`,
kept as a first-occurrence-ordered duplicate-free list. -/
def parseTags (txt : String) : List String :=
  (((pySplitComma txt).filter fun t => !t.isEmpty && !(pyStrip t).isEmpty).map
    fun t => pyLower (pyStrip t)).dedup

/-- `len(src_tags.intersection(dst_tags)) if (src_tags or dst_tags) else 0`
on the deduplicated tag lists. -/
def tagOverlap (s d : List String) : Nat :=
  if s.isEmpty && d.isEmpty then 0 else (s.filter fun t => d.contains t).length

/-- Keyword parameters of `autolink_for_node`. -/
structure LinkParams where
  top_k : Nat
  exclude_self : Bool
  max_distance : ℚ
  require_tag_overlap : Bool
  min_tag_overlap : ℤ
  close_override_distance : ℚ
  min_cosine : ℚ
  require_mutual : Bool
deriving DecidableEq

/-- The Python defaults of `autolink_for_node`. -/
def defaultParams : LinkParams :=
  { top_k := 5, exclude_self := true, max_distance := 85/100,
    require_tag_overlap := false, min_tag_overlap := 1,
    close_override_distance := 35/100, min_cosine := 55/100,
    require_mutual := false }

/-- `1 if exclude_self else 0`. -/
def selfSlot (ps : LinkParams) : Nat := if ps.exclude_self then 1 else 0

/-- The composite acceptance screen of `autolink_for_node` (step c): either
a distance condition — `d ≤ max_distance`, or `d ≤ close_override_distance`,
or tags corroborate (`require_tag_overlap` and `overlap ≥ min_tag_overlap`
and `d ≤ max_distance + 0.10`) — or a strong cosine
(`cos_val ≥ min_cosine`).  An unknown distance / cosine fails its side. -/
def acceptScreen (ps : LinkParams) (dist cos_val : Option ℚ) (overlap : Nat) : Bool :=
  let allowed_distance :=
    match dist with
    | none => false
    | some d =>
      decide (d ≤ ps.max_distance) ||
      decide (d ≤ ps.close_override_distance) ||
      (ps.require_tag_overlap && decide ((overlap : ℤ) ≥ ps.min_tag_overlap) &&
        decide (d ≤ ps.max_distance + 1/10))
  let allowed_cosine :=
    match cos_val with
    | none => false
    | some c => decide (c ≥ ps.min_cosine)
  allowed_distance || allowed_cosine

/-- The mutual-nearest-neighbour gate: only applied when the candidate's
embedding was retrievable (`dst_emb is not None` in the source); re-query
with the candidate's embedding for `top_k + (1 if exclude_self else 0)`
neighbours (no owner filter) and demand the origin id among them. -/
def mutualPass (env : Env) (ps : LinkParams) (node_id : String)
    (dst_emb : Option Vec) : Bool :=
  match dst_emb with
  | none => true
  | some de => (query_ideas env de (ps.top_k + selfSlot ps) none).1.contains node_id

/-- The edge weight of `autolink_for_node`:
`1.0 / (1.0 + float(dist)) if dist is not None else (float(cos_val) if
cos_val is not None else 0.0)`. -/
def linkWeight (dist cos_val : Option ℚ) : ℚ :=
  match dist with
  | some d => 1 / (1 + d)
  | none =>
    match cos_val with
    | some c => c
    | none => 0

/-- A result record appended by `autolink_for_node`. -/
structure LinkResult where
  edge_id : String
  dst_id : String
  weight : ℚ
  distance : Option ℚ
  tag_overlap : Nat
deriving DecidableEq

/-- The `for i, rid in enumerate(ids)` loop of `autolink_for_node`:
skip self; look up distance (None when the distances list is shorter),
destination embedding, cosine and tag overlap; apply `acceptScreen`, then
the optional mutual gate; derive the weight; skip when a `"similar"` edge
already exists; create the edge (a raised persistence failure propagates,
keeping the state reached so far) and append the result record. -/
def autolinkLoop (env : Env) (ps : LinkParams) (node_id : String) (emb : Vec)
    (src_tags : List String) (dists : List ℚ) :
    List (Nat × String) → DBState → List LinkResult →
    DBState × Except Unit (List LinkResult)
  | [], st, acc => (st, .ok acc)
  | (i, rid) :: rest, st, acc =>
    if ps.exclude_self && rid == node_id then
      autolinkLoop env ps node_id emb src_tags dists rest st acc
    else
      let dist := dists.get? i
      let dst_emb := get_idea_embedding env rid
      let cos_val := dst_emb.map fun de => dotList emb de
      let dst_tags := parseTags (((env.nodes rid).bind fun n => n.tags).getD "")
      let overlap := tagOverlap src_tags dst_tags
      let allowed := acceptScreen ps dist cos_val overlap &&
        (!ps.require_mutual || mutualPass env ps node_id dst_emb)
      if !allowed then autolinkLoop env ps node_id emb src_tags dists rest st acc
      else
        let weight := linkWeight dist cos_val
        if edge_exists st node_id rid "similar" then
          autolinkLoop env ps node_id emb src_tags dists rest st acc
        else
          match create_edge env st node_id rid "similar" weight with
          | (st', .error e) => (st', .error e)
          | (st', .ok eid) =>
            autolinkLoop env ps node_id emb src_tags dists rest st'
              (acc ++ [⟨eid, rid, weight, dist, overlap⟩])

/-- The body of the fallback's `for c in candidates` loop: skip a falsy or
self id, resolve the candidate's embedding (re-embedding from the row's
content as a last resort), and score it by the raw dot-product cosine;
`None` models `continue`. -/
def fallbackScore (env : Env) (ps : LinkParams) (node_id : String)
    (emb : Vec) (c : Row) : Option (String × ℚ) :=
  if c.node_id.isEmpty || (ps.exclude_self && c.node_id == node_id) then none
  else
    let cemb₀ := get_idea_embedding env c.node_id
    let cemb :=
      if vecFalsy cemb₀ then
        let content := pyStrip (c.content.getD "")
        if content.isEmpty then none else some (env.embed_text content)
      else cemb₀
    if vecFalsy cemb then none
    else some (c.node_id, dotList emb (cemb.getD []))

/-- The exact-search fallback of `autolink_for_node`: pool the most recent
(up to 200) ideas in the same owner scope, score them with
`fallbackScore`, rank by cosine descending (stable on ties, as CPython's
`sort(reverse=True)`), keep the `top_k` best, and map cosine to distance
by `max(0, 1 - cos)`. -/
def fallbackCandidates (env : Env) (ps : LinkParams) (node_id : String)
    (emb : Vec) (src : Option IdeaNode) : List String × List ℚ :=
  let candidates := env.list_idea_nodes 200 (src.bind fun n => n.user_id)
    (src.bind fun n => n.voice_profile_id)
  let sims := candidates.filterMap (fallbackScore env ps node_id emb)
  let kept := (sims.mergeSort fun a b => decide (b.2 ≤ a.2)).take ps.top_k
  (kept.map fun s => s.1, kept.map fun s => max 0 (1 - s.2))

/-- The primary vector-index query of `autolink_for_node`:
`chroma.query_ideas(emb, top_k + (1 if exclude_self else 0), where)`. -/
def primaryCandidates (env : Env) (ps : LinkParams) (emb : Vec)
    (whereArg : Option String) : List String × List ℚ :=
  query_ideas env emb (ps.top_k + selfSlot ps) whereArg

/-- Candidate selection of `autolink_for_node`: the fallback replaces the
primary result exactly when the primary result is empty or has at most
`1 if exclude_self else 0` ids. -/
def selectCandidates (env : Env) (ps : LinkParams) (node_id : String)
    (emb : Vec) (src : Option IdeaNode) (whereArg : Option String) :
    List String × List ℚ :=
  let pr := primaryCandidates env ps emb whereArg
  if pr.1.isEmpty || pr.1.length ≤ selfSlot ps then
    fallbackCandidates env ps node_id emb src
  else pr

/-- `GraphAgent.autolink_for_node`.  Returns the final edge table together
with either the created-edge records or the propagated persistence
failure. -/
def autolink_for_node (env : Env) (ps : LinkParams) (node_id : String)
    (st : DBState) : DBState × Except Unit (List LinkResult) :=
  match get_idea_embedding env node_id with
  | none => (st, .ok [])
  | some emb =>
    if emb.isEmpty then (st, .ok [])
    else
      let src := env.nodes node_id
      let src_tags := parseTags ((src.bind fun n => n.tags).getD "")
      let src_vp := pyStrip ((src.bind fun n => n.voice_profile_id).getD "")
      let whereArg := if src_vp.isEmpty then none else some src_vp
      let sel := selectCandidates env ps node_id emb src whereArg
      autolinkLoop env ps node_id emb src_tags sel.2 sel.1.enum st []

/-- The `for row in ideas` loop of `autolink_recent`. -/
def autolinkRecentLoop (env : Env) (ps : LinkParams) :
    List Row → DBState → List (String × List LinkResult) →
    DBState × Except Unit (List (String × List LinkResult))
  | [], st, acc => (st, .ok acc)
  | row :: rest, st, acc =>
    match autolink_for_node env ps row.node_id st with
    | (st', .error e) => (st', .error e)
    | (st', .ok created) =>
      autolinkRecentLoop env ps rest st' (acc ++ [(row.node_id, created)])

/-- `GraphAgent.autolink_recent`: link each of the `limit` most recent
ideas in the given owner scope in turn. -/
def autolink_recent (env : Env) (ps : LinkParams) (limit : Nat)
    (uid vp : Option String) (st : DBState) :
    DBState × Except Unit (List (String × List LinkResult)) :=
  autolinkRecentLoop env ps (env.list_idea_nodes limit uid vp) st []

/-- The inner `for nid in info["ids"]` loop of `cluster_ideas`: one
`cluster_member` edge per member, weight `1.0`; a raised creation
propagates. -/
def createMemberEdges (env : Env) (cluster_node_id : String) :
    List String → DBState → DBState × Except Unit Unit
  | [], st => (st, .ok ())
  | nid :: rest, st =>
    match create_edge env st cluster_node_id nid "cluster_member" 1 with
    | (st', .error e) => (st', .error e)
    | (st', .ok _) => createMemberEdges env cluster_node_id rest st'

/-- The cluster membership map: for each `cid` in `range(max(labels) + 1)`,
the ids whose label equals `cid`, in id order. -/
def clusterGroups (ids : List String) (labels : List Nat) (numC : Nat) :
    List (Nat × List String) :=
  (List.range numC).map fun cid =>
    (cid, ((ids.zip labels).filter fun p => p.2 == cid).map fun p => p.1)

/-- The `for cid, info in clusters.items()` loop of `cluster_ideas`,
restricted to its persistent effect (edge creation).  The cluster label /
summary computation (`top_tokens`, sample titles, tag counts) is a pure
computation whose value flows only into edge metadata and the returned
report, neither of which is among the modelled observables. -/
def clusterLoop (env : Env) (k : ℤ) :
    List (Nat × List String) → DBState → DBState × Except Unit Unit
  | [], st => (st, .ok ())
  | (cid, members) :: rest, st =>
    let cluster_node_id := "cluster:" ++ toString k ++ ":" ++ toString cid
    match createMemberEdges env cluster_node_id members st with
    | (st', .error e) => (st', .error e)
    | (st', .ok _) => clusterLoop env k rest st'

/-- `GraphAgent.cluster_ideas`, projected to its persistent effect and
error flow: empty input yields an empty report; a `kmeans` crash
(`IndexError`, see the reseed defect) or a missing label propagates before
any edge is created; otherwise one `cluster_member` edge is created per
member of each cluster, and a creation failure propagates keeping the
edges already created. -/
def cluster_ideas (env : Env) (k : ℤ) (st : DBState) :
    DBState × Except Unit Unit :=
  if env.clusterIds.isEmpty || env.clusterEmbs.isEmpty then (st, .ok ())
  else
    match kmeans env.clusterEmbs k 25 env.rng42 with
    | none => (st, .error ())
    | some (labels, _) =>
      if labels.length < env.clusterIds.length then (st, .error ())
      else
        let numC := labels.foldl max 0 + 1
        clusterLoop env k (clusterGroups env.clusterIds labels numC) st

/-!
## Lemmas about `kmeans`
-/

lemma bestStep_lt (v : Vec) :
    ∀ (cs : List Vec) (j : Nat) (acc : Nat × Option ℚ),
      acc.1 < j → (bestStep v cs j acc).1 < j + cs.length := by
  intro cs
  induction cs with
  | nil => intro j acc h; simpa [bestStep] using h
  | cons c rest ih =>
    intro j acc h
    have step :
        bestStep v (c :: rest) j acc =
          bestStep v rest (j + 1)
            (match acc.2 with
             | none => (j, some (1 - cosine_similarity v c))
             | some bd =>
               if 1 - cosine_similarity v c < bd
               then (j, some (1 - cosine_similarity v c)) else acc) := rfl
    rw [step]
    have hacc : (match acc.2 with
        | none => (j, some (1 - cosine_similarity v c))
        | some bd =>
          if 1 - cosine_similarity v c < bd
          then (j, some (1 - cosine_similarity v c)) else acc).1 < j + 1 := by
      cases h2 : acc.2 with
      | none => simp
      | some bd =>
        by_cases hd : 1 - cosine_similarity v c < bd
        · simp [hd]
        · simpa [hd] using Nat.lt_succ_of_lt h
    have := ih (j + 1) _ hacc
    simp only [List.length_cons]
    omega

lemma bestIdx_lt (v : Vec) (c : Vec) (rest : List Vec) :
    bestIdx v (c :: rest) < (c :: rest).length := by
  have h0 : bestIdx v (c :: rest) =
      (bestStep v rest 1 (0, some (1 - cosine_similarity v c))).1 := rfl
  have := bestStep_lt v rest 1 (0, some (1 - cosine_similarity v c)) (by simp)
  rw [h0]
  simpa [Nat.add_comm] using this

lemma assignLabels_lt (vectors : List Vec) (c : Vec) (rest : List Vec) :
    ∀ l ∈ assignLabels vectors (c :: rest), l < (c :: rest).length := by
  intro l hl
  simp only [assignLabels, List.mem_map] at hl
  obtain ⟨v, _, rfl⟩ := hl
  exact bestIdx_lt v c rest

lemma mapM_option_length {α β : Type} (f : α → Option β) :
    ∀ (xs : List α) (ys : List β), xs.mapM f = some ys → ys.length = xs.length := by
  intro xs
  induction xs with
  | nil =>
    intro ys h
    simp only [List.mapM_nil, pure, Option.some.injEq] at h
    simp [← h]
  | cons x rest ih =>
    intro ys h
    simp only [List.mapM_cons, bind, Option.bind_eq_some, pure,
      Option.some.injEq] at h
    obtain ⟨b, _, l, hl, rfl⟩ := h
    simp [ih l hl]

lemma accumulate_lengths :
    ∀ (pairs : List (Vec × Nat)) (sums : List Vec) (counts : List Nat)
      (res : List Vec × List Nat), accumulate pairs sums counts = some res →
      res.1.length = sums.length ∧ res.2.length = counts.length := by
  intro pairs
  induction pairs with
  | nil =>
    intro sums counts res h
    simp only [accumulate, Option.some.injEq] at h
    simp [← h]
  | cons p rest ih =>
    intro sums counts res h
    obtain ⟨v, i⟩ := p
    simp only [accumulate] at h
    split at h
    · split at h
      · have := ih _ _ _ h
        simpa [List.length_set] using this
      · exact absurd h (by simp)
    · exact absurd h (by simp)

lemma reseedAndDivide_length (vectors : List Vec) (rng : Rng) :
    ∀ (l : List (Vec × Nat)) (t : Nat) (res : List Vec × Nat),
      reseedAndDivide vectors rng l t = some res → res.1.length = l.length := by
  intro l
  induction l with
  | nil =>
    intro t res h
    simp only [reseedAndDivide, Option.some.injEq] at h
    simp [← h]
  | cons p rest ih =>
    intro t res h
    obtain ⟨s, c⟩ := p
    simp only [reseedAndDivide] at h
    split at h
    · split at h
      · exact absurd h (by simp)
      · split at h
        · exact absurd h (by simp)
        · rename_i cs t' hr
          simp only [Option.some.injEq] at h
          subst h
          simp [List.length_cons, ih _ _ hr]
    · split at h
      · exact absurd h (by simp)
      · rename_i cs t' hr
        simp only [Option.some.injEq] at h
        subst h
        simp [List.length_cons, ih _ _ hr]

lemma recompute_length (vectors : List Vec) (labels : List Nat) (k : Nat)
    (rng : Rng) (t : Nat) (res : List Vec × Nat)
    (h : recompute vectors labels k rng t = some res) : res.1.length = k := by
  simp only [recompute] at h
  split at h
  · exact absurd h (by simp)
  · split at h
    · exact absurd h (by simp)
    · rename_i v0 hh sums counts hacc
      have hlen := accumulate_lengths _ _ _ _ hacc
      have := reseedAndDivide_length vectors rng _ _ _ h
      simp only [List.length_replicate] at hlen
      rw [this, List.length_zip, hlen.1, hlen.2]
      exact Nat.min_self k

lemma kmeansLoop_labels (vectors : List Vec) (k : Nat) (rng : Rng) (hk : 0 < k) :
    ∀ (fuel : Nat) (labels : List Nat) (cs : List Vec) (t : Nat)
      (res : List Nat × List Vec),
      cs.length = k → labels.length = vectors.length → (∀ l ∈ labels, l < k) →
      kmeansLoop vectors k rng fuel labels cs t = some res →
      res.1.length = vectors.length ∧ ∀ l ∈ res.1, l < k := by
  intro fuel
  induction fuel with
  | zero =>
    intro labels cs t res hcs hlen hlt h
    simp only [kmeansLoop, Option.some.injEq] at h
    exact h ▸ ⟨hlen, hlt⟩
  | succ n ih =>
    intro labels cs t res hcs hlen hlt h
    obtain ⟨c, rest, rfl⟩ : ∃ c rest, cs = c :: rest := by
      cases cs with
      | nil => simp at hcs; omega
      | cons c rest => exact ⟨c, rest, rfl⟩
    have hlt' : ∀ l ∈ assignLabels vectors (c :: rest), l < k := by
      intro l hl
      have := assignLabels_lt vectors c rest l hl
      omega
    have hlen' : (assignLabels vectors (c :: rest)).length = vectors.length := by
      simp [assignLabels]
    simp only [kmeansLoop] at h
    by_cases hch : countChanges labels (assignLabels vectors (c :: rest)) = 0
    · rw [if_pos hch] at h
      simp only [Option.some.injEq] at h
      exact h ▸ ⟨hlen', hlt'⟩
    · rw [if_neg hch] at h
      cases hr : recompute vectors (assignLabels vectors (c :: rest)) k rng t with
      | none => rw [hr] at h; simp at h
      | some r2 =>
        obtain ⟨cs', t'⟩ := r2
        rw [hr] at h
        exact ih _ _ _ _ (recompute_length _ _ _ _ _ _ hr) hlen' hlt' h

lemma dedup_length_le_of_lt {l : List Nat} {m : Nat} (h : ∀ x ∈ l, x < m) :
    l.dedup.length ≤ m := by
  have hn : l.dedup.Nodup := List.nodup_dedup l
  have hsub : l.dedup.toFinset ⊆ Finset.range m := by
    intro x hx
    simp only [List.mem_toFinset, List.mem_dedup] at hx
    simpa [Finset.mem_range] using h x hx
  calc l.dedup.length = l.dedup.toFinset.card := (List.toFinset_card_of_nodup hn).symm
    _ ≤ (Finset.range m).card := Finset.card_le_card hsub
    _ = m := Finset.card_range m

/-- **C7** (refuting theorem for the latent reseed defect).  On the input
`vectors = [[1,0],[1,0],[0,1]]`, `k = 3`, with the sampled centroid indices
`[0, 1, 2]` and the first `randint(0, n)` draw equal to `3 = n` — a value
the Python `randint` contract explicitly permits, since both endpoints are
inclusive — the first iteration reassigns vector 2, cluster 1 becomes
empty, and the reseed step reads `vectors[3]` out of bounds: `kmeans`
raises `IndexError` (modelled by `none`) instead of running to completion.
The same input with the in-range draw `0` completes normally, isolating
the out-of-bounds reseed index as the only failure. -/
theorem kmeans_reseed_out_of_bounds :
    kmeans [[1, 0], [1, 0], [0, 1]] 3 25 ⟨[0, 1, 2], fun _ => 3⟩ = none ∧
    kmeans [[1, 0], [1, 0], [0, 1]] 3 25 ⟨[0, 1, 2], fun _ => 0⟩ =
      some ([0, 0, 2], [[1, 0], [1, 0], [0, 1]]) :=
  ⟨by with_unfolding_all decide, by with_unfolding_all decide⟩

/-- **C8**: `kmeans` is deterministic.  The embedding makes the only
stateful ingredient — the `random.Random(seed)` draw stream, which Python
guarantees to be a pure function of the seed — an explicit argument `Rng`;
`kmeans` is then a pure function of `(vectors, k, max_iter, rng)`, so two
runs on identical input and identical seed-derived streams produce
identical results (labels and centroids alike). -/
theorem kmeans_deterministic (vectors : List Vec) (k : ℤ) (m : Nat)
    (r₁ r₂ : Rng) (h : r₁ = r₂) :
    kmeans vectors k m r₁ = kmeans vectors k m r₂ := by rw [h]

theorem kmeans_deterministic_witness :
    (⟨[0], fun _ => 0⟩ : Rng) = ⟨[0], fun _ => 0⟩ ∧
    kmeans [[1]] 1 30 ⟨[0], fun _ => 0⟩ = kmeans [[1]] 1 30 ⟨[0], fun _ => 0⟩ :=
  ⟨rfl, kmeans_deterministic [[1]] 1 30 _ _ rfl⟩

/-- **C9**: `k` is clamped to `max(1, min(k, n))` (the code's spelling of
clamping to `[1, n]`); whenever `kmeans` returns, it returns one label per
input vector, every label is below the clamped `k`, and the number of
distinct labels is at most the clamped `k` and at most `n` — so `k = 10`
over 4 vectors yields at most 4 distinct clusters.  The hypothesis `hs`
records the `rnd.sample(range(n), k)` contract: it returns exactly `k`
indices. -/
theorem kmeans_labels_clamped (vectors : List Vec) (k : ℤ) (m : Nat)
    (rng : Rng) (labels : List Nat) (cents : List Vec)
    (hs : rng.sample.length = (max 1 (min k (vectors.length : ℤ))).toNat)
    (hres : kmeans vectors k m rng = some (labels, cents)) :
    labels.length = vectors.length ∧
    (∀ l ∈ labels, l < (max 1 (min k (vectors.length : ℤ))).toNat) ∧
    labels.dedup.length ≤ (max 1 (min k (vectors.length : ℤ))).toNat ∧
    labels.dedup.length ≤ vectors.length := by
  by_cases hv : vectors.isEmpty
  · rw [List.isEmpty_iff] at hv
    subst hv
    unfold kmeans at hres
    simp only [List.isEmpty_nil, if_true, Option.some.injEq, Prod.mk.injEq] at hres
    obtain ⟨h1, _⟩ := hres
    subst h1
    simp
  · unfold kmeans at hres
    rw [if_neg hv] at hres
    split at hres
    · exact absurd hres (by simp)
    · rename_i cs hcs
      have hk'pos : 0 < (max 1 (min k (vectors.length : ℤ))).toNat := by
        have h1 : (1 : ℤ) ≤ max 1 (min k (vectors.length : ℤ)) := le_max_left _ _
        omega
      have hcl : cs.length = (max 1 (min k (vectors.length : ℤ))).toNat := by
        rw [mapM_option_length _ _ _ hcs, hs]
      have hmain := kmeansLoop_labels vectors _ rng hk'pos m _ _ _ _ hcl
        (by simp) (fun l hl => by
          rw [List.eq_of_mem_replicate hl]; exact hk'pos) hres
      have hn : 0 < vectors.length := by
        cases vectors with
        | nil => simp at hv
        | cons a l => simp
      have hkn : (max 1 (min k (vectors.length : ℤ))).toNat ≤ vectors.length := by
        have h2 : min k (vectors.length : ℤ) ≤ (vectors.length : ℤ) :=
          min_le_right _ _
        omega
      exact ⟨hmain.1, hmain.2, dedup_length_le_of_lt hmain.2,
        le_trans (dedup_length_le_of_lt hmain.2) hkn⟩

theorem kmeans_labels_clamped_witness :
    ([0, 0, 0, 0] : List Nat).length = ([[(1 : ℚ)], [1], [1], [1]] : List Vec).length ∧
    (∀ l ∈ ([0, 0, 0, 0] : List Nat),
      l < (max 1 (min 10 ((([[(1 : ℚ)], [1], [1], [1]] : List Vec).length : Nat) : ℤ))).toNat) ∧
    ([0, 0, 0, 0] : List Nat).dedup.length ≤ ([[(1 : ℚ)], [1], [1], [1]] : List Vec).length := by
  have h := kmeans_labels_clamped [[(1 : ℚ)], [1], [1], [1]] 10 25
    ⟨[0, 1, 2, 3], fun _ => 0⟩ [0, 0, 0, 0] [[1], [1], [1], [1]]
    (by with_unfolding_all decide) (by with_unfolding_all decide)
  exact ⟨h.1, h.2.1, h.2.2.2⟩

/-!
## The acceptance screen (C1) and missing-embedding behaviour (C5)
-/

/-- **C1**: for a candidate with a known index-reported distance, the
acceptance screen passes iff `distance ≤ max_distance`, or
`distance ≤ close_override_distance`, or `require_tag_overlap` with
`tag_overlap ≥ min_tag_overlap` and `distance ≤ max_distance + 0.10`, or
the cosine is computable and `≥ min_cosine`; moreover any candidate with
`distance ≤ close_override_distance` passes regardless of the other
settings, and any candidate with a computable cosine `≥ min_cosine` passes
for every distance value, known or unknown. -/
theorem acceptScreen_characterisation (ps : LinkParams) :
    (∀ (d : ℚ) (cos_val : Option ℚ) (overlap : Nat),
      acceptScreen ps (some d) cos_val overlap = true ↔
        (d ≤ ps.max_distance ∨ d ≤ ps.close_override_distance ∨
          (ps.require_tag_overlap = true ∧ ps.min_tag_overlap ≤ (overlap : ℤ) ∧
            d ≤ ps.max_distance + 1/10) ∨
          ∃ c, cos_val = some c ∧ ps.min_cosine ≤ c)) ∧
    (∀ (d : ℚ) (cos_val : Option ℚ) (overlap : Nat),
      d ≤ ps.close_override_distance →
        acceptScreen ps (some d) cos_val overlap = true) ∧
    (∀ (dist : Option ℚ) (c : ℚ) (overlap : Nat),
      ps.min_cosine ≤ c → acceptScreen ps dist (some c) overlap = true) := by
  refine ⟨?_, ?_, ?_⟩
  · intro d cos_val overlap
    cases cos_val with
    | none =>
      simp only [acceptScreen, Bool.or_eq_true, Bool.and_eq_true,
        decide_eq_true_eq, ge_iff_le, reduceCtorEq, false_and, exists_false,
        or_false]
      tauto
    | some c =>
      simp only [acceptScreen, Bool.or_eq_true, Bool.and_eq_true,
        decide_eq_true_eq, ge_iff_le, Option.some.injEq, exists_eq_left']
      tauto
  · intro d cos_val overlap h
    cases cos_val with
    | none =>
      simp only [acceptScreen, Bool.or_eq_true, Bool.and_eq_true,
        decide_eq_true_eq]
      tauto
    | some c =>
      simp only [acceptScreen, Bool.or_eq_true, Bool.and_eq_true,
        decide_eq_true_eq]
      tauto
  · intro dist c overlap h
    cases dist <;>
      simp only [acceptScreen, Bool.or_eq_true, Bool.and_eq_true,
        decide_eq_true_eq, ge_iff_le] <;>
      tauto

theorem acceptScreen_characterisation_witness :
    ((1 : ℚ)/5 ≤ defaultParams.close_override_distance ∧
      acceptScreen defaultParams (some (1/5)) none 0 = true) ∧
    (defaultParams.min_cosine ≤ (9 : ℚ)/10 ∧
      acceptScreen defaultParams (some 2) (some (9/10)) 0 = true) :=
  ⟨⟨by with_unfolding_all decide,
    (acceptScreen_characterisation defaultParams).2.1 (1/5) none 0
      (by with_unfolding_all decide)⟩,
   ⟨by with_unfolding_all decide,
    (acceptScreen_characterisation defaultParams).2.2 (some 2) (9/10) 0
      (by with_unfolding_all decide)⟩⟩

/-- **C5**: when no embedding is derivable for the source idea,
`autolink_for_node` returns the empty list, leaves the edge table
untouched, and raises nothing. -/
theorem autolink_no_embedding (env : Env) (ps : LinkParams) (node_id : String)
    (st : DBState) (h : get_idea_embedding env node_id = none) :
    autolink_for_node env ps node_id st = (st, .ok []) := by
  unfold autolink_for_node
  rw [h]

/-- An environment with an empty index, an always-failing raw query, no
stored ideas and no content: no embedding is derivable for any id. -/
def envEmpty : Env :=
  { getIdeasEmb := fun _ => [], rawQuery := fun _ _ _ _ => .error (),
    nodes := fun _ => none, list_idea_nodes := fun _ _ _ => [],
    embed_text := fun _ => [], clusterIds := [], clusterEmbs := [],
    rng42 := ⟨[], fun _ => 0⟩, edgeFail := fun _ => false }

theorem autolink_no_embedding_witness :
    get_idea_embedding envEmpty "z" = none ∧
    autolink_for_node envEmpty defaultParams "z" ⟨[], 0⟩ = (⟨[], 0⟩, .ok []) :=
  ⟨by with_unfolding_all decide,
   autolink_no_embedding envEmpty defaultParams "z" ⟨[], 0⟩
     (by with_unfolding_all decide)⟩

/-!
## Edge weights (C4)
-/

lemma autolinkLoop_weight (env : Env) (ps : LinkParams) (node_id : String)
    (emb : Vec) (src_tags : List String) (dists : List ℚ) :
    ∀ (cands : List (Nat × String)) (st : DBState) (acc : List LinkResult)
      (st' : DBState) (res : List LinkResult),
      autolinkLoop env ps node_id emb src_tags dists cands st acc = (st', .ok res) →
      (∀ r ∈ acc, r.weight = linkWeight r.distance
        ((get_idea_embedding env r.dst_id).map fun de => dotList emb de)) →
      ∀ r ∈ res, r.weight = linkWeight r.distance
        ((get_idea_embedding env r.dst_id).map fun de => dotList emb de) := by
  intro cands
  induction cands with
  | nil =>
    intro st acc st' res h hacc
    simp only [autolinkLoop, Prod.mk.injEq, Except.ok.injEq] at h
    exact h.2 ▸ hacc
  | cons c rest ih =>
    intro st acc st' res h hacc
    obtain ⟨i, rid⟩ := c
    simp only [autolinkLoop] at h
    split at h
    · exact ih _ _ _ _ h hacc
    · split at h
      · exact ih _ _ _ _ h hacc
      · split at h
        · exact ih _ _ _ _ h hacc
        · split at h
          · simp only [Prod.mk.injEq, reduceCtorEq, and_false] at h
          · refine ih _ _ _ _ h ?_
            intro r hr
            rcases List.mem_append.mp hr with hr | hr
            · exact hacc r hr
            · rw [List.mem_singleton.mp hr]

/-- **C4** (amended): a created-edge record's weight is `1/(1 + distance)`
when the distance is known, else the computed raw-cosine value when that
is known, else `0.0`; for a KNOWN NONNEGATIVE distance the weight lies in
`(0, 1]`; and `weight_from_distance` maps `None` to `0.0`, `0.0` to `1.0`,
and is strictly decreasing on nonnegative distances.  (The claim's blanket
`weight ∈ [0, 1]` is not amended in: on the cosine path the weight is the
raw dot product, which exceeds that interval for non-normalised vectors —
see the counterexample.) -/
theorem autolink_weight_amended :
    (∀ (env : Env) (ps : LinkParams) (node_id : String) (st st' : DBState)
      (res : List LinkResult),
      autolink_for_node env ps node_id st = (st', .ok res) →
      ∀ r ∈ res, ∃ emb, get_idea_embedding env node_id = some emb ∧
        r.weight = linkWeight r.distance
          ((get_idea_embedding env r.dst_id).map fun de => dotList emb de)) ∧
    (∀ (d : ℚ) (cv : Option ℚ), 0 ≤ d →
      0 < linkWeight (some d) cv ∧ linkWeight (some d) cv ≤ 1) ∧
    weight_from_distance none = 0 ∧
    weight_from_distance (some 0) = 1 ∧
    (∀ d₁ d₂ : ℚ, 0 ≤ d₁ → d₁ < d₂ →
      weight_from_distance (some d₂) < weight_from_distance (some d₁)) := by
  refine ⟨?_, ?_, rfl, by norm_num [weight_from_distance], ?_⟩
  · intro env ps node_id st st' res h r hr
    unfold autolink_for_node at h
    split at h
    · simp only [Prod.mk.injEq, Except.ok.injEq] at h
      rw [← h.2] at hr
      cases hr
    · rename_i emb hemb
      split at h
      · simp only [Prod.mk.injEq, Except.ok.injEq] at h
        rw [← h.2] at hr
        cases hr
      · exact ⟨emb, hemb,
          autolinkLoop_weight env ps node_id emb _ _ _ _ _ _ _ h
            (by intro r hr; cases hr) r hr⟩
  · intro d cv hd
    have h1 : (0 : ℚ) < 1 + d := by linarith
    simp only [linkWeight]
    constructor
    · exact div_pos one_pos h1
    · rw [div_le_one h1]
      linarith
  · intro d₁ d₂ h0 hlt
    have h1 : (0 : ℚ) < 1 + d₁ := by linarith
    simp only [weight_from_distance]
    exact one_div_lt_one_div_of_lt h1 (by linarith)

/-- Environment for the weight counterexample: the index reports ids
`["b", "c"]` but no distances; the stored vectors are not unit-normalised
(`a ↦ [2]`, `b ↦ [1]`), so the cosine path computes a raw dot product of
`2`. -/
def envC4 : Env :=
  { getIdeasEmb := fun s => if s = "a" then [[2]] else if s = "b" then [[1]] else [],
    rawQuery := fun _ _ _ _ => .ok (["b", "c"], []),
    nodes := fun _ => none,
    list_idea_nodes := fun _ _ _ => [],
    embed_text := fun _ => [],
    clusterIds := [], clusterEmbs := [], rng42 := ⟨[], fun _ => 0⟩,
    edgeFail := fun _ => false }

/-- **C4** (counterexample to `weight ∈ [0, 1]`): with an unknown distance
and an accepted cosine of `2`, `autolink_for_node` creates an edge of
weight `2 > 1`. -/
theorem autolink_weight_counterexample :
    (autolink_for_node envC4 defaultParams "a" ⟨[], 0⟩).2 =
      .ok [⟨"0", "b", 2, none, 0⟩] ∧
    (autolink_for_node envC4 defaultParams "a" ⟨[], 0⟩).1.edges =
      [⟨"a", "b", "similar", 2⟩] ∧
    ¬((2 : ℚ) ≤ 1) :=
  ⟨by with_unfolding_all decide, by with_unfolding_all decide,
   by with_unfolding_all decide⟩

theorem autolink_weight_amended_witness :
    autolink_for_node envC4 defaultParams "a" ⟨[], 0⟩ =
      (⟨[⟨"a", "b", "similar", 2⟩], 1⟩, .ok [⟨"0", "b", 2, none, 0⟩]) ∧
    (∀ r ∈ [(⟨"0", "b", 2, none, 0⟩ : LinkResult)],
      ∃ emb, get_idea_embedding envC4 "a" = some emb ∧
        r.weight = linkWeight r.distance
          ((get_idea_embedding envC4 r.dst_id).map fun de => dotList emb de)) ∧
    ((0 : ℚ) ≤ 1/4 ∧ 0 < linkWeight (some (1/4)) none ∧
      linkWeight (some (1/4)) none ≤ 1) ∧
    ((0 : ℚ) ≤ 1/4 ∧ (1 : ℚ)/4 < 1/2 ∧
      weight_from_distance (some (1/2)) < weight_from_distance (some (1/4))) :=
  ⟨by with_unfolding_all decide,
   autolink_weight_amended.1 envC4 defaultParams "a" ⟨[], 0⟩
     ⟨[⟨"a", "b", "similar", 2⟩], 1⟩ [⟨"0", "b", 2, none, 0⟩]
     (by with_unfolding_all decide),
   ⟨by with_unfolding_all decide,
    autolink_weight_amended.2.1 (1/4) none (by with_unfolding_all decide)⟩,
   ⟨by with_unfolding_all decide, by with_unfolding_all decide,
    autolink_weight_amended.2.2.2.2 (1/4) (1/2) (by with_unfolding_all decide)
      (by with_unfolding_all decide)⟩⟩

/-!
## Uniqueness of `"similar"` edges (C3)
-/

/-- Number of `"similar"` edges from `s` to `d` in an edge table. -/
def countSim (edges : List Edge) (s d : String) : Nat :=
  (edges.filter fun e => e.src_id == s && e.dst_id == d && e.edge_type == "similar").length

/-- One step of a sequential linking workload: either an
`autolink_for_node` call or an `autolink_recent` call. -/
inductive LinkCall where
  | forNode (env : Env) (ps : LinkParams) (node_id : String)
  | recent (env : Env) (ps : LinkParams) (limit : Nat) (uid vp : Option String)

/-- Run a sequence of sequential linking calls, threading the edge table
(an error aborts that call but the edges it created remain, as in the
source, where every `create_edge` commits individually). -/
def runCalls : List LinkCall → DBState → DBState
  | [], st => st
  | .forNode env ps nid :: rest, st =>
    runCalls rest (autolink_for_node env ps nid st).1
  | .recent env ps limit uid vp :: rest, st =>
    runCalls rest (autolink_recent env ps limit uid vp st).1

lemma countSim_zero_of_no_edge {st : DBState} {s d : String}
    (h : edge_exists st s d "similar" = false) : countSim st.edges s d = 0 := by
  simp only [edge_exists, List.any_eq_false] at h
  simp only [countSim, List.length_eq_zero, List.filter_eq_nil_iff]
  exact h

lemma countSim_append (es : List Edge) (e : Edge) (s d : String) :
    countSim (es ++ [e]) s d =
      countSim es s d +
        (if e.src_id == s && e.dst_id == d && e.edge_type == "similar"
          then 1 else 0) := by
  simp only [countSim, List.filter_append, List.length_append]
  congr 1
  by_cases h : (e.src_id == s && e.dst_id == d && e.edge_type == "similar") = true
  · simp [List.filter, h]
  · simp only [Bool.not_eq_true] at h
    simp [List.filter, h]

lemma create_edge_error_edges {env : Env} {st : DBState} {src dst ty : String}
    {w : ℚ} {st' : DBState} {e : Unit}
    (h : create_edge env st src dst ty w = (st', .error e)) :
    st'.edges = st.edges := by
  simp only [create_edge] at h
  split at h
  · cases h; rfl
  · simp at h

lemma create_edge_ok_edges {env : Env} {st : DBState} {src dst ty : String}
    {w : ℚ} {st' : DBState} {eid : String}
    (h : create_edge env st src dst ty w = (st', .ok eid)) :
    st'.edges = st.edges ++ [⟨src, dst, ty, w⟩] := by
  simp only [create_edge] at h
  split at h
  · simp at h
  · cases h; rfl

lemma autolinkLoop_preserves (env : Env) (ps : LinkParams) (node_id : String)
    (emb : Vec) (src_tags : List String) (dists : List ℚ) :
    ∀ (cands : List (Nat × String)) (st : DBState) (acc : List LinkResult),
      (∀ s d, countSim st.edges s d ≤ 1) →
      ∀ s d,
        countSim (autolinkLoop env ps node_id emb src_tags dists cands st acc).1.edges
          s d ≤ 1 := by
  intro cands
  induction cands with
  | nil => intro st acc hst s d; exact hst s d
  | cons c rest ih =>
    intro st acc hst s d
    obtain ⟨i, rid⟩ := c
    simp only [autolinkLoop]
    split
    · exact ih st acc hst s d
    · split
      · exact ih st acc hst s d
      · split
        · exact ih st acc hst s d
        · rename_i hex
          split
          · rename_i st1 e1 heq
            show countSim st1.edges s d ≤ 1
            rw [create_edge_error_edges heq]
            exact hst s d
          · rename_i st1 eid heq
            apply ih
            intro s' d'
            rw [create_edge_ok_edges heq, countSim_append]
            simp only [beq_self_eq_true, Bool.and_true]
            by_cases hm : (node_id == s' && rid == d') = true
            · rw [if_pos hm]
              simp only [Bool.and_eq_true, beq_iff_eq] at hm
              have hz : countSim st.edges s' d' = 0 := by
                rw [← hm.1, ← hm.2]
                exact countSim_zero_of_no_edge (by simpa using hex)
              omega
            · rw [if_neg hm]
              have := hst s' d'
              omega

lemma autolink_for_node_preserves (env : Env) (ps : LinkParams)
    (node_id : String) (st : DBState)
    (hst : ∀ s d, countSim st.edges s d ≤ 1) :
    ∀ s d, countSim (autolink_for_node env ps node_id st).1.edges s d ≤ 1 := by
  intro s d
  unfold autolink_for_node
  split
  · exact hst s d
  · split
    · exact hst s d
    · exact autolinkLoop_preserves env ps node_id _ _ _ _ _ _ hst s d

lemma autolinkRecentLoop_preserves (env : Env) (ps : LinkParams) :
    ∀ (rows : List Row) (st : DBState) (acc : List (String × List LinkResult)),
      (∀ s d, countSim st.edges s d ≤ 1) →
      ∀ s d, countSim (autolinkRecentLoop env ps rows st acc).1.edges s d ≤ 1 := by
  intro rows
  induction rows with
  | nil => intro st acc hst s d; exact hst s d
  | cons row rest ih =>
    intro st acc hst s d
    simp only [autolinkRecentLoop]
    split
    · rename_i st' e heq
      have : st' = (autolink_for_node env ps row.node_id st).1 :=
        (congrArg Prod.fst heq).symm
      subst this
      exact autolink_for_node_preserves env ps row.node_id st hst s d
    · rename_i st' created heq
      apply ih
      intro s' d'
      have : st' = (autolink_for_node env ps row.node_id st).1 :=
        (congrArg Prod.fst heq).symm
      subst this
      exact autolink_for_node_preserves env ps row.node_id st hst s' d'

lemma autolinkLoop_skip_existing (env : Env) (ps : LinkParams)
    (node_id : String) (emb : Vec) (src_tags : List String) (dists : List ℚ)
    (i : Nat) (rid : String) (st : DBState) (acc : List LinkResult)
    (h : edge_exists st node_id rid "similar" = true) :
    autolinkLoop env ps node_id emb src_tags dists [(i, rid)] st acc =
      (st, .ok acc) := by
  simp only [autolinkLoop]
  split
  · rfl
  · split
    · rfl
    · simp only [h, if_true]

/-- **C3**: across any sequence of sequential `autolink_for_node` /
`autolink_recent` calls, a state in which every ordered pair has at most
one `"similar"` edge keeps that property (in particular, starting from an
empty table at most one such edge ever exists per ordered pair): before
creating, the loop checks `edge_exists`, and a candidate whose ordered
pair already carries a `"similar"` edge is skipped — the state and the
result-record list are returned unchanged for it. -/
theorem similar_edge_unique :
    (∀ (calls : List LinkCall) (st : DBState),
      (∀ s d, countSim st.edges s d ≤ 1) →
      ∀ s d, countSim (runCalls calls st).edges s d ≤ 1) ∧
    (∀ (env : Env) (ps : LinkParams) (node_id : String) (emb : Vec)
      (src_tags : List String) (dists : List ℚ) (i : Nat) (rid : String)
      (st : DBState) (acc : List LinkResult),
      edge_exists st node_id rid "similar" = true →
      autolinkLoop env ps node_id emb src_tags dists [(i, rid)] st acc =
        (st, .ok acc)) := by
  constructor
  · intro calls
    induction calls with
    | nil => intro st hst s d; exact hst s d
    | cons c rest ih =>
      intro st hst s d
      cases c with
      | forNode env ps nid =>
        exact ih _ (autolink_for_node_preserves env ps nid st hst) s d
      | recent env ps limit uid vp =>
        exact ih _ (autolinkRecentLoop_preserves env ps _ st [] hst) s d
  · exact autolinkLoop_skip_existing

theorem similar_edge_unique_witness :
    (∀ s d, countSim (DBState.mk [] 0).edges s d ≤ 1) ∧
    (∀ s d, countSim (runCalls
      [.forNode envC4 defaultParams "a", .forNode envC4 defaultParams "a"]
      ⟨[], 0⟩).edges s d ≤ 1) ∧
    edge_exists ⟨[⟨"a", "b", "similar", 2⟩], 1⟩ "a" "b" "similar" = true ∧
    autolinkLoop envC4 defaultParams "a" [2] [] [] [(0, "b")]
      ⟨[⟨"a", "b", "similar", 2⟩], 1⟩ [] =
      (⟨[⟨"a", "b", "similar", 2⟩], 1⟩, .ok []) :=
  ⟨fun s d => by simp [countSim],
   similar_edge_unique.1 _ ⟨[], 0⟩ (fun s d => by simp [countSim]),
   by with_unfolding_all decide,
   similar_edge_unique.2 envC4 defaultParams "a" [2] [] [] 0 "b"
     ⟨[⟨"a", "b", "similar", 2⟩], 1⟩ [] (by with_unfolding_all decide)⟩

/-!
## Candidate selection and the exact-search fallback (C2)
-/

/-- Environment refuting the claimed fallback trigger: the primary query
returns three usable candidates (fewer than `top_k = 5`), while the
fallback pool holds a different idea `"e"` with a stored vector. -/
def envC2 : Env :=
  { getIdeasEmb := fun s =>
      if s = "a" then [[1]] else if s = "e" then [[1]] else [],
    rawQuery := fun _ _ _ _ => .ok (["b", "c", "d"], [1/10, 1/10, 1/10]),
    nodes := fun _ => none,
    list_idea_nodes := fun _ _ _ => [⟨"e", none⟩],
    embed_text := fun _ => [], clusterIds := [], clusterEmbs := [],
    rng42 := ⟨[], fun _ => 0⟩, edgeFail := fun _ => false }

/-- **C2** (counterexample): with `top_k = 5` and a primary query returning
only 3 usable candidates — fewer than requested — the fallback is NOT
taken: candidate selection keeps the primary result `["b", "c", "d"]`
even though the fallback would produce `["e"]`, and `autolink_for_node`
links `b`, `c`, `d` and never `e`. -/
theorem fallback_trigger_counterexample :
    (primaryCandidates envC2 defaultParams [1] none).1.length <
      defaultParams.top_k ∧
    selectCandidates envC2 defaultParams "a" [1] none none =
      (["b", "c", "d"], [1/10, 1/10, 1/10]) ∧
    fallbackCandidates envC2 defaultParams "a" [1] none = (["e"], [0]) ∧
    selectCandidates envC2 defaultParams "a" [1] none none ≠
      fallbackCandidates envC2 defaultParams "a" [1] none ∧
    (autolink_for_node envC2 defaultParams "a" ⟨[], 0⟩).2 =
      .ok [⟨"0", "b", 10/11, some (1/10), 0⟩,
           ⟨"1", "c", 10/11, some (1/10), 0⟩,
           ⟨"2", "d", 10/11, some (1/10), 0⟩] :=
  ⟨by with_unfolding_all decide, by with_unfolding_all decide,
   by with_unfolding_all decide, by with_unfolding_all decide,
   by with_unfolding_all decide⟩

/-- **C2** (amended): the fallback replaces the primary result exactly when
the primary query yields no usable candidate (its id list is empty, or
contains at most the slot reserved for the node itself:
`len(ids) ≤ (1 if exclude_self else 0)`) — not merely fewer than `top_k`.
The fallback itself scores the most recent (up to 200) ideas of the same
owner scope by raw-cosine, keeps at most `top_k` of them in descending
cosine order with `distance = max(0, 1 − cosine)`, drawn from that pool;
and a raw index-query failure is absorbed inside `query_ideas` (retry,
then an empty result), so it never propagates to `autolink_for_node`. -/
theorem fallback_selection_amended :
    (∀ (env : Env) (ps : LinkParams) (node_id : String) (emb : Vec)
      (src : Option IdeaNode) (w : Option String),
      ((primaryCandidates env ps emb w).1.isEmpty ∨
        (primaryCandidates env ps emb w).1.length ≤ selfSlot ps) →
      selectCandidates env ps node_id emb src w =
        fallbackCandidates env ps node_id emb src) ∧
    (∀ (env : Env) (ps : LinkParams) (node_id : String) (emb : Vec)
      (src : Option IdeaNode) (w : Option String),
      ¬((primaryCandidates env ps emb w).1.isEmpty ∨
        (primaryCandidates env ps emb w).1.length ≤ selfSlot ps) →
      selectCandidates env ps node_id emb src w =
        primaryCandidates env ps emb w) ∧
    (∀ (env : Env) (ps : LinkParams) (node_id : String) (emb : Vec)
      (src : Option IdeaNode), ∃ kept : List (String × ℚ),
      fallbackCandidates env ps node_id emb src =
        (kept.map Prod.fst, kept.map fun s => max 0 (1 - s.2)) ∧
      kept.length ≤ ps.top_k ∧
      kept.Pairwise (fun a b => b.2 ≤ a.2) ∧
      ∀ p ∈ kept, p.1 ∈ (env.list_idea_nodes 200 (src.bind fun n => n.user_id)
        (src.bind fun n => n.voice_profile_id)).map Row.node_id) ∧
    (∀ (env : Env) (emb : Vec) (n : Nat) (w : Option String),
      env.rawQuery 0 emb n w = .error () → env.rawQuery 1 emb n w = .error () →
      query_ideas env emb n w = ([], [])) := by
  refine ⟨?_, ?_, ?_, ?_⟩
  · intro env ps node_id emb src w h
    have hb : ((primaryCandidates env ps emb w).1.isEmpty ||
        decide ((primaryCandidates env ps emb w).1.length ≤ selfSlot ps)) = true := by
      rcases h with h | h
      · simp [h]
      · simp [h]
    unfold selectCandidates
    simp only [hb, if_true]
  · intro env ps node_id emb src w h
    rcases not_or.mp h with ⟨h1, h2⟩
    have hb : ((primaryCandidates env ps emb w).1.isEmpty ||
        decide ((primaryCandidates env ps emb w).1.length ≤ selfSlot ps)) = false := by
      simp only [Bool.not_eq_true] at h1
      simp [h1, h2]
    unfold selectCandidates
    simp [hb]
  · intro env ps node_id emb src
    refine ⟨((env.list_idea_nodes 200 (src.bind fun n => n.user_id)
      (src.bind fun n => n.voice_profile_id)).filterMap
        (fallbackScore env ps node_id emb)).mergeSort
          (fun a b => decide (b.2 ≤ a.2)) |>.take ps.top_k, rfl, ?_, ?_, ?_⟩
    · rw [List.length_take]
      exact min_le_left _ _
    · have hsorted := @List.sorted_mergeSort (String × ℚ)
        (fun a b => decide (b.2 ≤ a.2))
        (fun a b c hab hbc => by
          simp only [decide_eq_true_eq] at *
          exact le_trans hbc hab)
        (fun a b => by
          simp only [Bool.or_eq_true, decide_eq_true_eq]
          exact le_total b.2 a.2)
        ((env.list_idea_nodes 200 (src.bind fun n => n.user_id)
          (src.bind fun n => n.voice_profile_id)).filterMap
            (fallbackScore env ps node_id emb))
      have hp := List.Pairwise.sublist (List.take_sublist ps.top_k _) hsorted
      exact hp.imp fun h => by simpa using h
    · intro p hp
      have hp1 := (List.take_sublist _ _).mem hp
      have hp2 := (List.mergeSort_perm _ _).mem_iff.mp hp1
      obtain ⟨c, hc, hf⟩ := List.mem_filterMap.mp hp2
      refine List.mem_map.mpr ⟨c, hc, ?_⟩
      unfold fallbackScore at hf
      dsimp only at hf
      repeat' split at hf
      all_goals try (simp only [Option.some.injEq] at hf; rw [← hf])
      all_goals exact absurd hf (by simp)
  · intro env emb n w h0 h1
    unfold query_ideas
    rw [h0, h1]

/-- The empty environment exercises both the fallback trigger (empty
primary result) and the failure-absorption path of `query_ideas`. -/
theorem fallback_selection_amended_witness :
    (((primaryCandidates envEmpty defaultParams [1] none).1.isEmpty ∨
      (primaryCandidates envEmpty defaultParams [1] none).1.length ≤
        selfSlot defaultParams) ∧
      selectCandidates envEmpty defaultParams "a" [1] none none =
        fallbackCandidates envEmpty defaultParams "a" [1] none) ∧
    (¬((primaryCandidates envC2 defaultParams [1] none).1.isEmpty ∨
      (primaryCandidates envC2 defaultParams [1] none).1.length ≤
        selfSlot defaultParams) ∧
      selectCandidates envC2 defaultParams "a" [1] none none =
        primaryCandidates envC2 defaultParams [1] none) ∧
    (envEmpty.rawQuery 0 [1] 6 none = .error () ∧
      envEmpty.rawQuery 1 [1] 6 none = .error () ∧
      query_ideas envEmpty [1] 6 none = ([], [])) :=
  ⟨⟨by with_unfolding_all decide,
    fallback_selection_amended.1 envEmpty defaultParams "a" [1] none none
      (by with_unfolding_all decide)⟩,
   ⟨by with_unfolding_all decide,
    fallback_selection_amended.2.1 envC2 defaultParams "a" [1] none none
      (by with_unfolding_all decide)⟩,
   ⟨by with_unfolding_all decide, by with_unfolding_all decide,
    fallback_selection_amended.2.2.2 envEmpty [1] 6 none
      (by with_unfolding_all decide) (by with_unfolding_all decide)⟩⟩

/-!
## The mutual-nearest-neighbour gate (C6)
-/

/-- Environment refuting the universality of the mutual gate: candidate
`"b"` has no stored vector and no content, so its embedding is not
retrievable; no query result ever contains the origin `"a"`. -/
def envC6 : Env :=
  { getIdeasEmb := fun s => if s = "a" then [[1]] else [],
    rawQuery := fun _ _ _ _ => .ok (["b", "x"], [1/10]),
    nodes := fun _ => none,
    list_idea_nodes := fun _ _ _ => [],
    embed_text := fun _ => [], clusterIds := [], clusterEmbs := [],
    rng42 := ⟨[], fun _ => 0⟩, edgeFail := fun _ => false }

/-- The default parameters with `require_mutual = True`. -/
def mutualParams : LinkParams := { defaultParams with require_mutual := true }

/-- **C6** (counterexample): with `require_mutual = True`, candidate `"b"`
passes the distance screen but its own embedding is not retrievable, so
the gate is skipped entirely (`dst_emb is not None` guards it): the edge
is created although no index re-query — in particular not the one with
the source's own embedding for `top_k + 1` results — returns the origin
`"a"`. -/
theorem mutual_gate_counterexample :
    (autolink_for_node envC6 mutualParams "a" ⟨[], 0⟩).2 =
      .ok [⟨"0", "b", 10/11, some (1/10), 0⟩] ∧
    (autolink_for_node envC6 mutualParams "a" ⟨[], 0⟩).1.edges =
      [⟨"a", "b", "similar", 10/11⟩] ∧
    get_idea_embedding envC6 "b" = none ∧
    ¬("a" ∈ (query_ideas envC6 [1] (mutualParams.top_k + 1) none).1) :=
  ⟨by with_unfolding_all decide, by with_unfolding_all decide,
   by with_unfolding_all decide, by with_unfolding_all decide⟩

lemma autolinkLoop_mutual (env : Env) (ps : LinkParams) (node_id : String)
    (emb : Vec) (src_tags : List String) (dists : List ℚ)
    (hrm : ps.require_mutual = true) :
    ∀ (cands : List (Nat × String)) (st : DBState) (acc : List LinkResult)
      (st' : DBState) (res : List LinkResult),
      autolinkLoop env ps node_id emb src_tags dists cands st acc = (st', .ok res) →
      (∀ r ∈ acc, get_idea_embedding env r.dst_id = none ∨
        ∃ de, get_idea_embedding env r.dst_id = some de ∧
          node_id ∈ (query_ideas env de (ps.top_k + selfSlot ps) none).1) →
      ∀ r ∈ res, get_idea_embedding env r.dst_id = none ∨
        ∃ de, get_idea_embedding env r.dst_id = some de ∧
          node_id ∈ (query_ideas env de (ps.top_k + selfSlot ps) none).1 := by
  intro cands
  induction cands with
  | nil =>
    intro st acc st' res h hacc
    simp only [autolinkLoop, Prod.mk.injEq, Except.ok.injEq] at h
    exact h.2 ▸ hacc
  | cons c rest ih =>
    intro st acc st' res h hacc
    obtain ⟨i, rid⟩ := c
    simp only [autolinkLoop] at h
    split at h
    · exact ih _ _ _ _ h hacc
    · rename_i hskip
      split at h
      · exact ih _ _ _ _ h hacc
      · rename_i hallow
        split at h
        · exact ih _ _ _ _ h hacc
        · split at h
          · simp only [Prod.mk.injEq, reduceCtorEq, and_false] at h
          · refine ih _ _ _ _ h ?_
            intro r hr
            rcases List.mem_append.mp hr with hr | hr
            · exact hacc r hr
            · rw [List.mem_singleton.mp hr]
              have hmp : mutualPass env ps node_id (get_idea_embedding env rid) = true := by
                simp only [Bool.not_eq_true', Bool.not_eq_false,
                  Bool.and_eq_true] at hallow
                have h2 := hallow.2
                rw [hrm] at h2
                simpa using h2
              unfold mutualPass at hmp
              cases hde : get_idea_embedding env rid with
              | none => exact Or.inl rfl
              | some de =>
                rw [hde] at hmp
                refine Or.inr ⟨de, rfl, ?_⟩
                simpa [List.contains_eq_any_beq, List.any_eq_true, beq_iff_eq,
                  eq_comm] using hmp

/-- **C6** (amended): with `require_mutual = True`, every created-edge
record's candidate either has NO retrievable embedding — in which case the
mutual gate is skipped and the acceptance from step (c) stands — or has
one, and then the origin `node_id` appears among the results of re-querying
the index with that embedding for `top_k + (1 if exclude_self else 0)`
neighbours (the code requests `top_k + 1` only when `exclude_self` is
set). -/
theorem mutual_gate_amended (env : Env) (ps : LinkParams) (node_id : String)
    (st st' : DBState) (res : List LinkResult)
    (hrm : ps.require_mutual = true)
    (h : autolink_for_node env ps node_id st = (st', .ok res)) :
    ∀ r ∈ res, get_idea_embedding env r.dst_id = none ∨
      ∃ de, get_idea_embedding env r.dst_id = some de ∧
        node_id ∈ (query_ideas env de (ps.top_k + selfSlot ps) none).1 := by
  unfold autolink_for_node at h
  split at h
  · simp only [Prod.mk.injEq, Except.ok.injEq] at h
    intro r hr
    rw [← h.2] at hr
    cases hr
  · split at h
    · simp only [Prod.mk.injEq, Except.ok.injEq] at h
      intro r hr
      rw [← h.2] at hr
      cases hr
    · exact autolinkLoop_mutual env ps node_id _ _ _ hrm _ _ _ _ _ h
        (by intro r hr; cases hr)

/-- A variant of `envC6` in which candidate `"b"` does have a stored
vector and the re-query returns the origin `"a"`, exercising the
applicable half of the gate. -/
def envC6W : Env :=
  { envC6 with
    getIdeasEmb := fun s =>
      if s = "a" then [[1]] else if s = "b" then [[1]] else [],
    rawQuery := fun _ _ _ _ => .ok (["a", "b"], [1/10, 1/10]) }

theorem mutual_gate_amended_witness :
    mutualParams.require_mutual = true ∧
    (∀ r ∈ [(⟨"0", "b", 10/11, some (1/10), 0⟩ : LinkResult)],
      get_idea_embedding envC6W r.dst_id = none ∨
      ∃ de, get_idea_embedding envC6W r.dst_id = some de ∧
        "a" ∈ (query_ideas envC6W de
          (mutualParams.top_k + selfSlot mutualParams) none).1) :=
  ⟨rfl,
   mutual_gate_amended envC6W mutualParams "a" ⟨[], 0⟩
     ⟨[⟨"a", "b", "similar", 10/11⟩], 1⟩
     [⟨"0", "b", 10/11, some (1/10), 0⟩] rfl
     (by with_unfolding_all decide)⟩

/-!
## Persistence failures propagate (C10)
-/

/-- 1 for a propagated exception, 0 for a normal return. -/
def errCost {α : Type} : Except Unit α → Nat
  | .error _ => 1
  | .ok _ => 0

lemma create_edge_calls {env : Env} {st : DBState} {src dst ty : String}
    {w : ℚ} {st' : DBState} {r : Except Unit String}
    (h : create_edge env st src dst ty w = (st', r)) :
    st'.createCalls = st.createCalls + 1 := by
  simp only [create_edge] at h
  split at h <;> (cases h; rfl)

lemma take_prefix_trans {st st₁ st' : DBState}
    (h1 : st₁.edges.take st.edges.length = st.edges)
    (h2 : st'.edges.take st₁.edges.length = st₁.edges) :
    st'.edges.take st.edges.length = st.edges := by
  have hlen1 : st.edges.length ≤ st₁.edges.length := by
    have := congrArg List.length h1
    simp only [List.length_take] at this
    omega
  calc st'.edges.take st.edges.length
      = (st'.edges.take st₁.edges.length).take st.edges.length := by
        rw [List.take_take, min_eq_left hlen1]
    _ = st₁.edges.take st.edges.length := by rw [h2]
    _ = st.edges := h1

lemma take_prefix_le {st st' : DBState}
    (h : st'.edges.take st.edges.length = st.edges) :
    st.edges.length ≤ st'.edges.length := by
  have := congrArg List.length h
  simp only [List.length_take] at this
  omega

lemma autolinkLoop_effect (env : Env) (ps : LinkParams) (node_id : String)
    (emb : Vec) (src_tags : List String) (dists : List ℚ) :
    ∀ (cands : List (Nat × String)) (st : DBState) (acc : List LinkResult)
      (st' : DBState) (r : Except Unit (List LinkResult)),
      autolinkLoop env ps node_id emb src_tags dists cands st acc = (st', r) →
      st'.edges.take st.edges.length = st.edges ∧
      st'.createCalls =
        st.createCalls + (st'.edges.length - st.edges.length) + errCost r := by
  intro cands
  induction cands with
  | nil =>
    intro st acc st' r h
    simp only [autolinkLoop, Prod.mk.injEq] at h
    obtain ⟨h1, h2⟩ := h
    subst h1
    subst h2
    exact ⟨List.take_length _, by simp [errCost]⟩
  | cons c rest ih =>
    intro st acc st' r h
    obtain ⟨i, rid⟩ := c
    simp only [autolinkLoop] at h
    split at h
    · exact ih _ _ _ _ h
    · split at h
      · exact ih _ _ _ _ h
      · split at h
        · exact ih _ _ _ _ h
        · split at h
          · rename_i st1 e1 heq
            simp only [Prod.mk.injEq] at h
            obtain ⟨h1, h2⟩ := h
            subst h1
            subst h2
            have he := create_edge_error_edges heq
            have hc := create_edge_calls heq
            rw [he]
            refine ⟨List.take_length _, ?_⟩
            rw [hc]
            simp [errCost]
          · rename_i st1 eid heq
            have he := create_edge_ok_edges heq
            have hc := create_edge_calls heq
            obtain ⟨ih1, ih2⟩ := ih _ _ _ _ h
            have hlen1 : st1.edges.length = st.edges.length + 1 := by
              rw [he]; simp
            have hpre : st1.edges.take st.edges.length = st.edges := by
              rw [he, List.take_append_of_le_length (le_refl _),
                List.take_length]
            have hle := take_prefix_le ih1
            exact ⟨take_prefix_trans hpre ih1, by omega⟩

lemma createMemberEdges_effect (env : Env) (cid : String) :
    ∀ (members : List String) (st st' : DBState) (r : Except Unit Unit),
      createMemberEdges env cid members st = (st', r) →
      st'.edges.take st.edges.length = st.edges ∧
      st'.createCalls =
        st.createCalls + (st'.edges.length - st.edges.length) + errCost r := by
  intro members
  induction members with
  | nil =>
    intro st st' r h
    simp only [createMemberEdges, Prod.mk.injEq] at h
    obtain ⟨h1, h2⟩ := h
    subst h1
    subst h2
    exact ⟨List.take_length _, by simp [errCost]⟩
  | cons nid rest ih =>
    intro st st' r h
    simp only [createMemberEdges] at h
    split at h
    · rename_i st1 e1 heq
      simp only [Prod.mk.injEq] at h
      obtain ⟨h1, h2⟩ := h
      subst h1
      subst h2
      have he := create_edge_error_edges heq
      have hc := create_edge_calls heq
      rw [he]
      refine ⟨List.take_length _, ?_⟩
      rw [hc]
      simp [errCost]
    · rename_i st1 eid heq
      have he := create_edge_ok_edges heq
      have hc := create_edge_calls heq
      obtain ⟨ih1, ih2⟩ := ih _ _ _ h
      have hlen1 : st1.edges.length = st.edges.length + 1 := by
        rw [he]; simp
      have hpre : st1.edges.take st.edges.length = st.edges := by
        rw [he, List.take_append_of_le_length (le_refl _), List.take_length]
      have hle := take_prefix_le ih1
      exact ⟨take_prefix_trans hpre ih1, by omega⟩

lemma clusterLoop_effect (env : Env) (k : ℤ) :
    ∀ (groups : List (Nat × List String)) (st st' : DBState)
      (r : Except Unit Unit),
      clusterLoop env k groups st = (st', r) →
      st'.edges.take st.edges.length = st.edges ∧
      st'.createCalls =
        st.createCalls + (st'.edges.length - st.edges.length) + errCost r := by
  intro groups
  induction groups with
  | nil =>
    intro st st' r h
    simp only [clusterLoop, Prod.mk.injEq] at h
    obtain ⟨h1, h2⟩ := h
    subst h1
    subst h2
    exact ⟨List.take_length _, by simp [errCost]⟩
  | cons g rest ih =>
    intro st st' r h
    obtain ⟨cid, members⟩ := g
    simp only [clusterLoop] at h
    split at h
    · rename_i st1 e1 heq
      simp only [Prod.mk.injEq] at h
      obtain ⟨h1, h2⟩ := h
      subst h1
      subst h2
      exact createMemberEdges_effect env _ _ _ _ _ heq
    · rename_i st1 u heq
      obtain ⟨m1, m2⟩ := createMemberEdges_effect env _ _ _ _ _ heq
      obtain ⟨ih1, ih2⟩ := ih _ _ _ h
      have hle1 := take_prefix_le m1
      have hle2 := take_prefix_le ih1
      refine ⟨take_prefix_trans m1 ih1, ?_⟩
      simp only [errCost] at m2
      omega

/-- **C10**: a `create_edge` failure during `autolink_for_node` or
`cluster_ideas` propagates to the caller as-is: the final edge table
extends the initial one (edges already created remain; no rollback), and
the `create_edge` attempt counter accounts for exactly one attempt per
created edge plus exactly one attempt for a propagated failure — i.e. no
retry happens and nothing is caught inside the core.  (For
`cluster_ideas`, a propagated error may also be the pre-persistence
`kmeans` IndexError, in which case no attempt at all was made — hence the
two-sided bound.) -/
theorem persistence_failure_propagates :
    (∀ (env : Env) (ps : LinkParams) (node_id : String) (st st' : DBState)
      (r : Except Unit (List LinkResult)),
      autolink_for_node env ps node_id st = (st', r) →
      st'.edges.take st.edges.length = st.edges ∧
      st'.createCalls =
        st.createCalls + (st'.edges.length - st.edges.length) + errCost r) ∧
    (∀ (env : Env) (k : ℤ) (st st' : DBState) (r : Except Unit Unit),
      cluster_ideas env k st = (st', r) →
      st'.edges.take st.edges.length = st.edges ∧
      st.createCalls + (st'.edges.length - st.edges.length) ≤ st'.createCalls ∧
      st'.createCalls ≤
        st.createCalls + (st'.edges.length - st.edges.length) + errCost r) := by
  constructor
  · intro env ps node_id st st' r h
    unfold autolink_for_node at h
    split at h
    · simp only [Prod.mk.injEq] at h
      obtain ⟨h1, h2⟩ := h
      subst h1
      subst h2
      exact ⟨List.take_length _, by simp [errCost]⟩
    · split at h
      · simp only [Prod.mk.injEq] at h
        obtain ⟨h1, h2⟩ := h
        subst h1
        subst h2
        exact ⟨List.take_length _, by simp [errCost]⟩
      · exact autolinkLoop_effect env ps node_id _ _ _ _ _ _ _ _ h
  · intro env k st st' r h
    unfold cluster_ideas at h
    split at h
    · simp only [Prod.mk.injEq] at h
      obtain ⟨h1, h2⟩ := h
      subst h1
      subst h2
      exact ⟨List.take_length _, by simp [errCost]⟩
    · split at h
      · simp only [Prod.mk.injEq] at h
        obtain ⟨h1, h2⟩ := h
        subst h1
        subst h2
        exact ⟨List.take_length _, by simp [errCost]⟩
      · rename_i labels cents heq
        split at h
        · simp only [Prod.mk.injEq] at h
          obtain ⟨h1, h2⟩ := h
          subst h1
          subst h2
          exact ⟨List.take_length _, by simp [errCost]⟩
        · obtain ⟨h1, h2⟩ := clusterLoop_effect env k _ _ _ _ h
          exact ⟨h1, by omega, by omega⟩

/-- Environment in which the second `create_edge` INSERT raises. -/
def envC10 : Env :=
  { getIdeasEmb := fun s => if s = "a" then [[1]] else [],
    rawQuery := fun _ _ _ _ => .ok (["b", "c", "d"], [1/10, 1/10, 1/10]),
    nodes := fun _ => none,
    list_idea_nodes := fun _ _ _ => [],
    embed_text := fun _ => [],
    clusterIds := ["i", "j"], clusterEmbs := [[1], [1]],
    rng42 := ⟨[0], fun _ => 0⟩,
    edgeFail := fun t => t = 1 }

theorem persistence_failure_propagates_witness :
    (autolink_for_node envC10 defaultParams "a" ⟨[], 0⟩ =
      (⟨[⟨"a", "b", "similar", 10/11⟩], 2⟩, .error ()) ∧
      ([(⟨"a", "b", "similar", 10/11⟩ : Edge)].take 0 = [] ∧
        (2 : Nat) = 0 + (1 - 0) + errCost (.error () : Except Unit (List LinkResult)))) ∧
    (cluster_ideas envC10 1 ⟨[], 0⟩ =
      (⟨[⟨"cluster:1:0", "i", "cluster_member", 1⟩], 2⟩, .error ()) ∧
      ([(⟨"cluster:1:0", "i", "cluster_member", 1⟩ : Edge)].take 0 = [] ∧
        0 + (1 - 0) ≤ 2 ∧
        (2 : Nat) ≤ 0 + (1 - 0) + errCost (.error () : Except Unit Unit))) :=
  ⟨⟨by with_unfolding_all decide,
    persistence_failure_propagates.1 envC10 defaultParams "a" ⟨[], 0⟩
      ⟨[⟨"a", "b", "similar", 10/11⟩], 2⟩ (.error ())
      (by with_unfolding_all decide)⟩,
   ⟨by with_unfolding_all decide,
    persistence_failure_propagates.2 envC10 1 ⟨[], 0⟩
      ⟨[⟨"cluster:1:0", "i", "cluster_member", 1⟩], 2⟩ (.error ())
      (by with_unfolding_all decide)⟩⟩
